import Mathlib

/-
Shallow embedding of the mongo-perf wildcard-index benchmark builders
(`testcases/wildcard_index_query.js` and its companion source file).

The JavaScript sources build, at load time, a list of benchmark test cases:
field-name lists, document-generator closures, query-operation lists and
registry records.  All of that is pure data construction and is embedded
below as executable Lean definitions.  JavaScript objects are modelled as
ordered association lists (insertion order, update-in-place), JavaScript
numbers appearing here are integers, and the dynamic `path` argument of
`setDottedFieldToValue` ranges over a value type `JSValue`.
-/

/-- A JavaScript value as used by these scripts: a number, a string, an
array, or an object (an insertion-ordered list of named fields). -/
inductive JSValue where
  | vNum (n : Int)
  | vStr (s : String)
  | vArr (elems : List JSValue)
  | vObj (fields : List (String × JSValue))

/-- Property lookup `o[f]` on a JavaScript object: first binding wins
(bindings are kept unique by `objSet`); `none` stands for `undefined`. -/
def objLookup : List (String × JSValue) → String → Option JSValue
  | [], _ => none
  | (k, w) :: rest, f => if k = f then some w else objLookup rest f

/-- Property assignment `o[f] = v` on a JavaScript object: updates the
existing binding in place (keeping insertion order) or appends a new one. -/
def objSet : List (String × JSValue) → String → JSValue → List (String × JSValue)
  | [], f, v => [(f, v)]
  | (k, w) :: rest, f, v => if k = f then (f, v) :: rest else (k, w) :: objSet rest f v

/-- The `typeof x === "object"` test of the source: JavaScript reports
`"object"` for both plain objects and arrays. -/
def isJSObject : JSValue → Bool
  | JSValue.vObj _ => true
  | JSValue.vArr _ => true
  | _ => false

/-- Accumulator loop of `splitDots` (JavaScript `path.split(".")`). -/
def splitDotsAux : List Char → List Char → List String
  | [], acc => [String.mk acc.reverse]
  | c :: rest, acc =>
    if c = '.' then String.mk acc.reverse :: splitDotsAux rest [] else splitDotsAux rest (c :: acc)

/-- JavaScript `path.split(".")`: splits on every dot, keeping empty
segments, and always returns at least one segment. -/
def splitDots (s : String) : List String :=
  splitDotsAux s.data []

/-- Recursion of `setDottedFieldToValue` over the dot-separated segments of
the path (the source re-splits `path.slice(fields[0].length + 1)`, which is
exactly the tail of the segment list).  A non-object receiver is returned
unchanged: JavaScript silently discards property writes on primitives, and
the one remaining case (writing a named property on an array) never occurs
in these scripts and is not representable in this document model. -/
def setFields : JSValue → List String → JSValue → JSValue
  | object, [], _ => object
  | object, [f], value =>
    match object with
    | JSValue.vObj fs => JSValue.vObj (objSet fs f value)
    | v => v
  | object, f :: g :: rest, value =>
    match object with
    | JSValue.vObj fs =>
      let child :=
        match objLookup fs f with
        | some c => if isJSObject c then c else JSValue.vObj []
        | none => JSValue.vObj []
      JSValue.vObj (objSet fs f (setFields child (g :: rest) value))
    | v => v

/-- `setDottedFieldToValue(object, path, value)` from the source: inserts
`value` at the dotted `path` inside `object`, overwriting an intermediate
non-object value with a fresh empty object; a non-string `path` leaves the
object untouched. -/
def setDottedFieldToValue (object path value : JSValue) : JSValue :=
  match path with
  | JSValue.vStr s => setFields object (splitDots s) value
  | _ => object

/-- Reads the value stored at a segment path inside a document; used to
state what a dotted location holds after generation. -/
def getPath : JSValue → List String → Option JSValue
  | v, [] => some v
  | JSValue.vObj fs, f :: rest =>
    match objLookup fs f with
    | some c => getPath c rest
    | none => none
  | _, _ :: _ => none

mutual

/-- A document value containing no arrays anywhere; the scalar document
generator only ever builds such values. -/
def noArr : JSValue → Bool
  | JSValue.vNum _ => true
  | JSValue.vStr _ => true
  | JSValue.vArr _ => false
  | JSValue.vObj fs => noArrFields fs

/-- Field-list companion of `noArr`. -/
def noArrFields : List (String × JSValue) → Bool
  | [] => true
  | (_, w) :: rest => noArr w && noArrFields rest

end

/-- Decimal printing of a nonnegative JavaScript number, digit loop with
explicit fuel so that it evaluates by kernel reduction. -/
def natDecimalAux : Nat → Nat → List Char
  | 0, _ => []
  | fuel + 1, n =>
    if n < 10 then [Nat.digitChar n]
    else natDecimalAux fuel (n / 10) ++ [Nat.digitChar (n % 10)]

/-- Decimal string of a nonnegative JavaScript number, as produced by the
string concatenations `"field-" + i` and `"subObj-" + i` of the source. -/
def natDecimal (n : Nat) : String :=
  String.mk (natDecimalAux (n + 1) n)

/-- `getNFieldNames(numFields)`: the names `field-0 … field-(numFields-1)`. -/
def getNFieldNames (numFields : Nat) : List String :=
  (List.range numFields).map (fun i => "field-" ++ natDecimal i)

/-- The `pathPrefix` accumulation loop of `getNFieldNamesAtGivenDepth`:
joins `subObj-0 … subObj-(depth-1)` with dots. -/
def subObjPath (depth : Nat) : String :=
  (List.range depth).foldl
    (fun acc i => acc ++ (if 0 < i then "." else "") ++ ("subObj-" ++ natDecimal i)) ""

/-- `getNFieldNamesAtGivenDepth(nFields, depth)`: prefixes every flat field
name with the dotted `subObj` path (always inserting a `"."` separator,
even when the prefix is empty). -/
def getNFieldNamesAtGivenDepth (nFields depth : Nat) : List String :=
  (getNFieldNames nFields).map (fun s => subObjPath depth ++ "." ++ s)

/-- Joining a list of path segments with dots; spec-side description of a
dotted path made of the given segments (used to state what a name with
exactly `depth` prefix segments looks like). -/
def joinDots : List String → String
  | [] => ""
  | [x] => x
  | x :: y :: rest => x ++ "." ++ joinDots (y :: rest)

/-- Modelled from the spec: the shell's shared pseudo-random stream
(`Random.setRandomSeed` / `Random.randInt`) is outside this repository; the
spec requires only a reproducible generator with `randInt bound` uniform in
`[0, bound)`.  It is modelled as an explicit state with a deterministic
step, `randInt bound` returning a value below `bound`. -/
structure RandState where
  val : Nat
deriving DecidableEq

/-- Modelled from the spec: `Random.setRandomSeed(seed)` starts the shared
stream at a state determined by the seed alone. -/
def setRandomSeed (seed : Nat) : RandState :=
  ⟨seed⟩

/-- Modelled from the spec: `Random.randInt(bound)` draws the next value of
the stream, in `[0, bound)` for positive `bound`, and advances the state. -/
def randInt (bound : Nat) (rs : RandState) : Nat × RandState :=
  (rs.val % bound, ⟨rs.val * 1664525 + 1013904223⟩)

/-- A value position inside a query document: the harness placeholder
`#RAND_INT [lo, hi]`, the placeholder `#VARIABLE name`, or a closed range
`\x7b$gte: gte, $lte: lte\x7d`. -/
inductive QueryValue where
  | randIntTag (lo hi : Nat)
  | varRef (name : String)
  | range (gte lte : Nat)
deriving DecidableEq

/-- A query document: a single-field predicate, a `$and` of two query
documents, or a `$query`/`$orderby` pair with an ascending sort field. -/
inductive QueryDoc where
  | fieldPred (field : String) (v : QueryValue)
  | and (q1 q2 : QueryDoc)
  | orderby (q : QueryDoc) (sortField : String)
deriving DecidableEq

/-- One harness operation: a `find` with a query document, or a `let`
binding a harness variable to a value. -/
inductive QueryOp where
  | find (query : QueryDoc)
  | letOp (target : String) (value : QueryValue)
deriving DecidableEq

instance : Inhabited QueryOp :=
  ⟨QueryOp.find (QueryDoc.fieldPred "" (QueryValue.range 0 0))⟩

/-- Body of the closure returned by
`getMultiFieldPathToIntegerDocumentGenerator`: starts from an empty
document and sets every listed dotted path to the integer seed. -/
def multiFieldPathDocFn (fieldList : List String) (seed : Int) : JSValue :=
  fieldList.foldl
    (fun doc f => setDottedFieldToValue doc (JSValue.vStr f) (JSValue.vNum seed))
    (JSValue.vObj [])

/-- `getMultiFieldPathToIntegerDocumentGenerator(fieldList)`: asserts a
non-empty field list (a failed assertion aborts the build and is modelled
as `none`), then returns the per-seed document generator. -/
def getMultiFieldPathToIntegerDocumentGenerator (fieldList : List String) :
    Option (Int → JSValue) :=
  if fieldList.length > 0 then some (multiFieldPathDocFn fieldList) else none

/-- The shared array built by the closure of
`getTopLevelArrayMultiFieldDocumentGenerator`: `arraySize` consecutive
integers starting at `seed - Math.ceil(arraySize / 2)`. -/
def sharedArrayValue (arraySize : Nat) (seed : Int) : List JSValue :=
  (List.range arraySize).map
    (fun (j : Nat) => JSValue.vNum (seed - ((arraySize + 1) / 2 : Nat) + (j : Int)))

/-- Body of the closure returned by
`getTopLevelArrayMultiFieldDocumentGenerator`: every listed field receives
the same shared array value. -/
def topLevelArrayMultiFieldDocFn (fieldList : List String) (arraySize : Nat)
    (seed : Int) : JSValue :=
  JSValue.vObj
    (fieldList.foldl (fun fs k => objSet fs k (JSValue.vArr (sharedArrayValue arraySize seed))) [])

/-- `getTopLevelArrayMultiFieldDocumentGenerator(fieldList, arraySize)`:
asserts a non-empty field list, then returns the per-seed generator. -/
def getTopLevelArrayMultiFieldDocumentGenerator (fieldList : List String) (arraySize : Nat) :
    Option (Int → JSValue) :=
  if fieldList.length > 0 then some (topLevelArrayMultiFieldDocFn fieldList arraySize) else none

/-- Body of the closure returned by
`getTopLevelArraySingleFieldPerDocumentGenerator` (the seed-driven variant
of `testcases/wildcard_index_query.js`): the single field at index
`seed % fieldList.length` receives the array `[0 .. arraySize-1]`.  The
JavaScript remainder agrees with `Int.emod` on the nonnegative seeds the
scripts produce. -/
def topLevelArraySingleFieldDocFn (fieldList : List String) (arraySize : Nat)
    (seed : Int) : JSValue :=
  let value := JSValue.vArr ((List.range arraySize).map (fun (j : Nat) => JSValue.vNum (j : Int)))
  let currentFieldIndex := (seed % (fieldList.length : Int)).toNat
  JSValue.vObj (objSet [] (fieldList.getD currentFieldIndex "") value)

/-- `getTopLevelArraySingleFieldPerDocumentGenerator(fieldList, arraySize)`:
asserts a non-empty field list, then returns the per-seed generator. -/
def getTopLevelArraySingleFieldPerDocumentGenerator (fieldList : List String) (arraySize : Nat) :
    Option (Int → JSValue) :=
  if fieldList.length > 0 then some (topLevelArraySingleFieldDocFn fieldList arraySize) else none

/-- `getPointQueryList(fieldList, maxValue)`: one `find` per field, each
matching the harness placeholder `#RAND_INT [0, maxValue]`. -/
def getPointQueryList (fieldList : List String) (maxValue : Nat) : List QueryOp :=
  fieldList.map
    (fun f => QueryOp.find (QueryDoc.fieldPred f (QueryValue.randIntTag 0 maxValue)))

/-- `getTwoPointQueryList(fieldList, numDocuments)`: asserts a field list of
length exactly 2 (modelled as `none` on failure), then returns a `let`
binding a random value and one `find` conjoining both fields against it. -/
def getTwoPointQueryList (fieldList : List String) (numDocuments : Nat) :
    Option (List QueryOp) :=
  if fieldList.length = 2 then
    some
      [QueryOp.letOp "randVal" (QueryValue.randIntTag 0 numDocuments),
       QueryOp.find
         (QueryDoc.and
           (QueryDoc.fieldPred (fieldList.getD 0 "") (QueryValue.varRef "randVal"))
           (QueryDoc.fieldPred (fieldList.getD 1 "") (QueryValue.varRef "randVal")))]
  else none

/-- The per-field loop shared by both `getRangeQueryList` definitions: for
each field, draw `rangeStart = Random.randInt(numDocuments - 10)` from the
stream and emit `\x7b$gte: rangeStart, $lte: rangeStart + 10\x7d`. -/
def rangeQueryLoop : List String → Nat → RandState → List QueryOp × RandState
  | [], _, rs => ([], rs)
  | f :: rest, numDocuments, rs =>
    let draw := randInt (numDocuments - 10) rs
    let tail := rangeQueryLoop rest numDocuments draw.2
    (QueryOp.find (QueryDoc.fieldPred f (QueryValue.range draw.1 (draw.1 + 10))) :: tail.1,
      tail.2)

/-- The per-field loop of `getRangeSortQueryList`: same range predicate,
wrapped in `$query`/`$orderby` with an ascending sort on the same field. -/
def rangeSortQueryLoop : List String → Nat → RandState → List QueryOp × RandState
  | [], _, rs => ([], rs)
  | f :: rest, numDocuments, rs =>
    let draw := randInt (numDocuments - 10) rs
    let tail := rangeSortQueryLoop rest numDocuments draw.2
    (QueryOp.find
        (QueryDoc.orderby (QueryDoc.fieldPred f (QueryValue.range draw.1 (draw.1 + 10))) f)
        :: tail.1,
      tail.2)

/-- `getRangeQueryList(fieldList, numDocuments)` of
`testcases/wildcard_index_query.js`: calls `Random.setRandomSeed(11010)`
first, discarding the incoming stream state, then runs the per-field loop. -/
def getRangeQueryList (fieldList : List String) (numDocuments : Nat) (_ : RandState) :
    List QueryOp × RandState :=
  rangeQueryLoop fieldList numDocuments (setRandomSeed 11010)

/-- `getRangeSortQueryList(fieldList, numDocuments)` of
`testcases/wildcard_index_query.js`: re-seeds with 11010 and runs the
sort-variant loop. -/
def getRangeSortQueryList (fieldList : List String) (numDocuments : Nat) (_ : RandState) :
    List QueryOp × RandState :=
  rangeSortQueryLoop fieldList numDocuments (setRandomSeed 11010)

/-- The `pre` field of a registry record.  The setup closures built by
`getSetupFunctionWithWildcardIndex` and `getSetupFunctionForTargetedIndex`
only perform external collection operations (drop, populate, createIndex),
so each is embedded symbolically as the builder applied to its captured
arguments. -/
inductive PreSetup where
  | wildcardIndex (fieldsToIndex : List String) (documentGenerator : Option (Int → JSValue))
      (documentCount : Nat)
  | targetedIndex (fieldsToIndex : List String) (documentGenerator : Option (Int → JSValue))
      (documentCount : Nat)

/-- `getSetupFunctionWithWildcardIndex`: drop, populate, create one `$**`
index (restricted by a `wildcardProjection` when the field list is
non-empty); embedded as its symbolic record. -/
def getSetupFunctionWithWildcardIndex (fieldsToIndex : List String)
    (documentGenerator : Option (Int → JSValue)) (documentCount : Nat) : PreSetup :=
  PreSetup.wildcardIndex fieldsToIndex documentGenerator documentCount

/-- `getSetupFunctionForTargetedIndex`: drop, populate, create one sparse
single-field index per listed field; embedded as its symbolic record. -/
def getSetupFunctionForTargetedIndex (fieldsToIndex : List String)
    (documentGenerator : Option (Int → JSValue)) (documentCount : Nat) : PreSetup :=
  PreSetup.targetedIndex fieldsToIndex documentGenerator documentCount

/-- One record of the global `tests` registry. -/
structure TestCase where
  name : String
  tags : List String
  pre : PreSetup
  ops : List QueryOp

/-- `addReadTest(options)` of `testcases/wildcard_index_query.js`: prefixes
the name, prepends the fixed baseline tags and pushes one record onto the
registry (the registry is passed explicitly here). -/
def addReadTest (name : String) (tags : List String) (pre : PreSetup) (ops : List QueryOp)
    (tests : List TestCase) : List TestCase :=
  tests ++
    [{ name := "Queries.WildcardIndex." ++ name,
       tags := ["wildcard_read", "indexed", ">=4.1.3"] ++ tags,
       pre := pre,
       ops := ops }]

/-- `makeStandaloneReadTest`: one registry record with the wildcard-index
setup. -/
def makeStandaloneReadTest (name : String) (fieldsToIndex : List String)
    (operationList : List QueryOp) (documentGenerator : Option (Int → JSValue))
    (documentCount : Nat) (tests : List TestCase) : List TestCase :=
  addReadTest name ["regression"]
    (getSetupFunctionWithWildcardIndex fieldsToIndex documentGenerator documentCount)
    operationList tests

/-- `makeComparisonReadTest`: two registry records, the first with the
wildcard-index setup and the second, suffixed `.Baseline`, with the
targeted-index setup. -/
def makeComparisonReadTest (name : String) (fieldsToIndex : List String)
    (operationList : List QueryOp) (documentGenerator : Option (Int → JSValue))
    (documentCount : Nat) (tests : List TestCase) : List TestCase :=
  addReadTest (name ++ ".Baseline") ["regression"]
    (getSetupFunctionForTargetedIndex fieldsToIndex documentGenerator documentCount)
    operationList
    (addReadTest name ["regression"]
      (getSetupFunctionWithWildcardIndex fieldsToIndex documentGenerator documentCount)
      operationList tests)

namespace P0

/-- `getDocumentGenerator(fieldList, documentCount)` of the companion source
file: asserts a non-empty field list, then inserts `documentCount`
documents; embedded by the document inserted at loop index `i`, which sets
every listed dotted path to `i`. -/
def getDocumentGenerator (fieldList : List String) (documentCount : Nat) :
    Option (Nat → JSValue) :=
  if fieldList.length > 0 then some (fun i => multiFieldPathDocFn fieldList i) else none

/-- Document inserted at loop index `i` by the closure of the companion
file's `getTopLevelArrayDocumentGenerator`: the loop pushes
`j = i - arraySize*10/2`, stepping by 10 while `j < i + arraySize*10/2`,
which yields `arraySize` values `i - 5*arraySize + 10*j`. -/
def arrayDocFn (fieldList : List String) (arraySize : Nat) (i : Nat) : JSValue :=
  let value :=
    JSValue.vArr
      ((List.range arraySize).map (fun (j : Nat) => JSValue.vNum ((i : Int) - 5 * arraySize + 10 * (j : Int))))
  JSValue.vObj (fieldList.foldl (fun fs k => objSet fs k value) [])

/-- `getTopLevelArrayDocumentGenerator(fieldList, documentCount, arraySize)`
of the companion source file: asserts a non-empty field list, then inserts
one `arrayDocFn` document per loop index. -/
def getTopLevelArrayDocumentGenerator (fieldList : List String) (documentCount arraySize : Nat) :
    Option (Nat → JSValue) :=
  if fieldList.length > 0 then some (arrayDocFn fieldList arraySize) else none

/-- `getTopLevelArraySingleFieldPerDocumentGenerator` of the companion
source file: `currentFieldIndex` starts at 0 and is incremented modulo the
field-list length after every insertion, so the document at loop index `i`
carries the single field `fieldList[i % fieldList.length]` with value
`[0 .. arraySize-1]`. -/
def getTopLevelArraySingleFieldPerDocumentGenerator (fieldList : List String)
    (documentCount arraySize : Nat) : Option (Nat → JSValue) :=
  if fieldList.length > 0 then
    some (fun i =>
      let value := JSValue.vArr ((List.range arraySize).map (fun (j : Nat) => JSValue.vNum (j : Int)))
      JSValue.vObj (objSet [] (fieldList.getD (i % fieldList.length) "") value))
  else none

/-- `getRangeQueryList(fieldList, numDocuments)` of the companion source
file: draws directly from the shared stream (seeded once, at the top of the
file, by `Random.setRandomSeed(11010)`) with no re-seeding of its own. -/
def getRangeQueryList (fieldList : List String) (numDocuments : Nat) (rs : RandState) :
    List QueryOp × RandState :=
  rangeQueryLoop fieldList numDocuments rs

/-- `getRangeSortQueryList` of the companion source file: likewise draws
directly from the shared stream. -/
def getRangeSortQueryList (fieldList : List String) (numDocuments : Nat) (rs : RandState) :
    List QueryOp × RandState :=
  rangeSortQueryLoop fieldList numDocuments rs

end P0

/-- Segment-list comparison used to state when two dotted paths are
non-conflicting: `isSegPre s1 s2` holds when `s1` is an initial run of
`s2`. -/
def isSegPre : List String → List String → Bool
  | [], _ => true
  | _ :: _, [] => false
  | a :: as, b :: bs => if a = b then isSegPre as bs else false

/-- The `typeof path === "string"` test guarding `setDottedFieldToValue`. -/
def isJSString : JSValue → Bool
  | JSValue.vStr _ => true
  | _ => false

/-! Helper lemmas about the embedded JavaScript object operations. -/

theorem objLookup_objSet_self (fs : List (String × JSValue)) (f : String) (v : JSValue) :
    objLookup (objSet fs f v) f = some v := by
  induction fs with
  | nil => simp [objSet, objLookup]
  | cons kw rest ih =>
    obtain ⟨k, w⟩ := kw
    by_cases h : k = f <;> simp [objSet, objLookup, h, ih]

theorem objLookup_objSet_ne (fs : List (String × JSValue)) (f g : String) (v : JSValue)
    (hgf : g ≠ f) : objLookup (objSet fs f v) g = objLookup fs g := by
  have hfg : ¬f = g := fun h => hgf h.symm
  induction fs with
  | nil => simp [objSet, objLookup, hfg]
  | cons kw rest ih =>
    obtain ⟨k, w⟩ := kw
    by_cases hkf : k = f
    · subst hkf
      simp [objSet, objLookup, hfg]
    · by_cases hkg : k = g <;> simp [objSet, objLookup, hkf, hkg, hgf, ih]

theorem splitDotsAux_ne_nil (cs acc : List Char) : splitDotsAux cs acc ≠ [] := by
  induction cs generalizing acc with
  | nil => simp [splitDotsAux]
  | cons c rest ih =>
    by_cases h : c = '.' <;> simp [splitDotsAux, h, ih]

theorem splitDots_ne_nil (s : String) : splitDots s ≠ [] :=
  splitDotsAux_ne_nil s.data []

/-! Helper lemmas about decimal printing, leading to injectivity of the
generated field names. -/

theorem natDecimalAux_fuel (f1 f2 n : Nat) (h1 : n < f1) (h2 : n < f2) :
    natDecimalAux f1 n = natDecimalAux f2 n := by
  induction f1 generalizing f2 n with
  | zero => omega
  | succ k ih =>
    cases f2 with
    | zero => omega
    | succ m =>
      by_cases hn : n < 10
      · simp [natDecimalAux, hn]
      · have hdiv : n / 10 < n := Nat.div_lt_self (by omega) (by omega)
        have := ih m (n / 10) (by omega) (by omega)
        simp [natDecimalAux, hn, this]

theorem natDecimalAux_canon (n : Nat) :
    natDecimalAux (n + 1) n =
      if n < 10 then [Nat.digitChar n]
      else natDecimalAux (n / 10 + 1) (n / 10) ++ [Nat.digitChar (n % 10)] := by
  by_cases hn : n < 10
  · simp [natDecimalAux, hn]
  · have hdiv : n / 10 < n := Nat.div_lt_self (by omega) (by omega)
    have := natDecimalAux_fuel n (n / 10 + 1) (n / 10) (by omega) (by omega)
    simp [natDecimalAux, hn, this]

theorem natDecimalAux_ne_nil (n : Nat) : natDecimalAux (n + 1) n ≠ [] := by
  rw [natDecimalAux_canon]
  split <;> simp

theorem digitChar_inj_lt (a b : Fin 10) (h : Nat.digitChar a = Nat.digitChar b) :
    (a : Nat) = (b : Nat) := by
  revert h
  revert a b
  decide

theorem natDecimalAux_inj (m : Nat) :
    ∀ n, natDecimalAux (m + 1) m = natDecimalAux (n + 1) n → m = n := by
  induction m using Nat.strong_induction_on with
  | _ m ih =>
    intro n h
    rw [natDecimalAux_canon m, natDecimalAux_canon n] at h
    by_cases hm : m < 10 <;> by_cases hn : n < 10
    · rw [if_pos hm, if_pos hn] at h
      have := digitChar_inj_lt ⟨m, hm⟩ ⟨n, hn⟩ (by simpa using h)
      simpa using this
    · rw [if_pos hm, if_neg hn] at h
      have hlen := congrArg List.length h
      rw [List.length_append] at hlen
      simp only [List.length_singleton] at hlen
      have hz : (natDecimalAux (n / 10 + 1) (n / 10)).length = 0 := by omega
      exact absurd (List.length_eq_zero.mp hz) (natDecimalAux_ne_nil (n / 10))
    · rw [if_neg hm, if_pos hn] at h
      have hlen := congrArg List.length h
      rw [List.length_append] at hlen
      simp only [List.length_singleton] at hlen
      have hz : (natDecimalAux (m / 10 + 1) (m / 10)).length = 0 := by omega
      exact absurd (List.length_eq_zero.mp hz) (natDecimalAux_ne_nil (m / 10))
    · rw [if_neg hm, if_neg hn] at h
      have hrev := congrArg List.reverse h
      rw [List.reverse_append, List.reverse_append] at hrev
      simp only [List.reverse_cons, List.reverse_nil, List.nil_append, List.singleton_append,
        List.cons.injEq] at hrev
      obtain ⟨hdig, htails⟩ := hrev
      have hmod : m % 10 = n % 10 :=
        digitChar_inj_lt ⟨m % 10, Nat.mod_lt _ (by omega)⟩ ⟨n % 10, Nat.mod_lt _ (by omega)⟩ hdig
      have hdivlt : m / 10 < m := Nat.div_lt_self (by omega) (by omega)
      have hdivs : m / 10 = n / 10 := by
        apply ih (m / 10) hdivlt
        exact List.reverse_injective htails
      omega

theorem natDecimal_injective : Function.Injective natDecimal := by
  intro m n h
  exact natDecimalAux_inj m n (congrArg String.data h)

theorem string_append_left_cancel (a b c : String) (h : a ++ b = a ++ c) : b = c := by
  apply String.ext
  have hdata := congrArg String.data h
  simp only [String.data_append] at hdata
  exact List.append_cancel_left hdata


theorem objLookup_noArrFields {fs : List (String × JSValue)} {f : String} {c : JSValue}
    (hfs : noArrFields fs = true) (h : objLookup fs f = some c) : noArr c = true := by
  induction fs with
  | nil => simp [objLookup] at h
  | cons kw rest ih =>
    obtain ⟨k, w⟩ := kw
    rw [noArrFields] at hfs
    simp only [Bool.and_eq_true] at hfs
    by_cases hk : k = f
    · simp [objLookup, hk] at h
      rw [← h]
      exact hfs.1
    · simp [objLookup, hk] at h
      exact ih hfs.2 h

theorem noArrFields_objSet {fs : List (String × JSValue)} {f : String} {v : JSValue}
    (h1 : noArrFields fs = true) (h2 : noArr v = true) :
    noArrFields (objSet fs f v) = true := by
  induction fs with
  | nil => simp [objSet, noArrFields, h2]
  | cons kw rest ih =>
    obtain ⟨k, w⟩ := kw
    rw [noArrFields] at h1
    simp only [Bool.and_eq_true] at h1
    by_cases hk : k = f
    · simp [objSet, hk, noArrFields, h2, h1.2]
    · simp only [objSet, if_neg hk]
      rw [noArrFields]
      simp [h1.1, ih h1.2]

theorem setFields_vObj (fs : List (String × JSValue)) (segs : List String) (v : JSValue) :
    ∃ fs2, setFields (JSValue.vObj fs) segs v = JSValue.vObj fs2 := by
  match segs with
  | [] => exact ⟨fs, rfl⟩
  | [f] => exact ⟨objSet fs f v, rfl⟩
  | f :: g :: rest => exact ⟨_, rfl⟩

theorem setFields_non_obj (v : JSValue) (segs : List String) (w : JSValue)
    (h : ∀ fs, v ≠ JSValue.vObj fs) : setFields v segs w = v := by
  match segs, v with
  | [], _ => rfl
  | [f], JSValue.vNum k => rfl
  | [f], JSValue.vStr s => rfl
  | [f], JSValue.vArr xs => rfl
  | [f], JSValue.vObj fs => exact absurd rfl (h fs)
  | f :: g :: rest, JSValue.vNum k => rfl
  | f :: g :: rest, JSValue.vStr s => rfl
  | f :: g :: rest, JSValue.vArr xs => rfl
  | f :: g :: rest, JSValue.vObj fs => exact absurd rfl (h fs)

theorem noArr_setFields (segs : List String) (obj v : JSValue) (hobj : noArr obj = true)
    (hv : noArr v = true) : noArr (setFields obj segs v) = true := by
  induction segs generalizing obj with
  | nil => simpa [setFields]
  | cons f rest ih =>
    cases rest with
    | nil =>
      cases obj with
      | vObj fs =>
        rw [noArr] at hobj
        show noArr (JSValue.vObj (objSet fs f v)) = true
        rw [noArr]
        exact noArrFields_objSet hobj hv
      | vNum k => simpa [setFields]
      | vStr s => simpa [setFields]
      | vArr xs => simpa [setFields]
    | cons g rest2 =>
      cases obj with
      | vObj fs =>
        rw [noArr] at hobj
        show noArr (JSValue.vObj (objSet fs f
          (setFields (match objLookup fs f with
            | some c => if isJSObject c then c else JSValue.vObj []
            | none => JSValue.vObj []) (g :: rest2) v))) = true
        rw [noArr]
        apply noArrFields_objSet hobj
        apply ih
        cases hc : objLookup fs f with
        | none => simp [noArr, noArrFields]
        | some c =>
          have hcna := objLookup_noArrFields hobj hc
          cases c with
          | vObj cfs => simpa [isJSObject] using hcna
          | vNum k => simp [isJSObject, noArr, noArrFields]
          | vStr s => simp [isJSObject, noArr, noArrFields]
          | vArr xs => simp [noArr] at hcna
      | vNum k => simpa [setFields]
      | vStr s => simpa [setFields]
      | vArr xs => simpa [setFields]

theorem setFields_getPath_self (segs : List String) :
    ∀ (fs : List (String × JSValue)) (v : JSValue), noArrFields fs = true → segs ≠ [] →
      getPath (setFields (JSValue.vObj fs) segs v) segs = some v := by
  induction segs with
  | nil => exact fun fs v _ hne => absurd rfl hne
  | cons f rest ih =>
    intro fs v hfs _
    cases rest with
    | nil => simp [setFields, getPath, objLookup_objSet_self]
    | cons g rest2 =>
      cases hc : objLookup fs f with
      | none =>
        simp only [setFields, hc, getPath, objLookup_objSet_self]
        exact ih [] v (by rw [noArrFields]) (by simp)
      | some c =>
        cases c with
        | vObj cfs =>
          simp only [setFields, hc, isJSObject, if_pos, getPath, objLookup_objSet_self]
          have hcna : noArrFields cfs = true := by
            have := objLookup_noArrFields hfs hc
            rwa [noArr] at this
          exact ih cfs v hcna (by simp)
        | vNum k =>
          simp only [setFields, hc, isJSObject, getPath, objLookup_objSet_self, if_neg,
            Bool.false_eq_true, not_false_eq_true]
          exact ih [] v (by rw [noArrFields]) (by simp)
        | vStr s =>
          simp only [setFields, hc, isJSObject, getPath, objLookup_objSet_self, if_neg,
            Bool.false_eq_true, not_false_eq_true]
          exact ih [] v (by rw [noArrFields]) (by simp)
        | vArr xs =>
          simp only [setFields, hc, isJSObject, if_pos, getPath, objLookup_objSet_self]
          have := objLookup_noArrFields hfs hc
          rw [noArr] at this
          exact absurd this (by simp)

theorem getPath_cons_obj (fs : List (String × JSValue)) (f : String) (rest : List String) :
    getPath (JSValue.vObj fs) (f :: rest) =
      match objLookup fs f with
      | some c => getPath c rest
      | none => none := rfl

theorem getPath_objSet_head (fs : List (String × JSValue)) (f : String) (x : JSValue)
    (rest : List String) :
    getPath (JSValue.vObj (objSet fs f x)) (f :: rest) = getPath x rest := by
  rw [getPath_cons_obj, objLookup_objSet_self]

theorem getPath_objSet_other (fs : List (String × JSValue)) (g : String) (x : JSValue)
    (f : String) (rest : List String) (h : f ≠ g) :
    getPath (JSValue.vObj (objSet fs g x)) (f :: rest) = getPath (JSValue.vObj fs) (f :: rest) := by
  rw [getPath_cons_obj, getPath_cons_obj, objLookup_objSet_ne fs g f x h]

theorem setFields_getPath_preserve (s2 : List String) :
    ∀ (obj : JSValue) (s1 : List String) (v : JSValue),
      isSegPre s1 s2 = false → isSegPre s2 s1 = false →
      getPath (setFields obj s2 v) s1 = getPath obj s1 := by
  induction s2 with
  | nil =>
    intro obj s1 v _ h2
    simp [isSegPre] at h2
  | cons g s2' ih =>
    intro obj s1 v h1 h2
    cases obj with
    | vNum k => rw [setFields_non_obj _ _ _ (fun fs h => JSValue.noConfusion h)]
    | vStr s => rw [setFields_non_obj _ _ _ (fun fs h => JSValue.noConfusion h)]
    | vArr xs => rw [setFields_non_obj _ _ _ (fun fs h => JSValue.noConfusion h)]
    | vObj fs =>
      cases s1 with
      | nil => simp [isSegPre] at h1
      | cons f s1' =>
        by_cases hfg : f = g
        · subst hfg
          have h1' : isSegPre s1' s2' = false := by simpa [isSegPre] using h1
          have h2' : isSegPre s2' s1' = false := by simpa [isSegPre] using h2
          cases s2' with
          | nil => simp [isSegPre] at h2'
          | cons g2 rest2 =>
            have hs1ne : s1' ≠ [] := by
              intro he
              rw [he] at h1'
              simp [isSegPre] at h1'
            simp only [setFields]
            cases hc : objLookup fs f with
            | none =>
              rw [getPath_objSet_head, ih (JSValue.vObj []) s1' v h1' h2']
              cases s1' with
              | nil => exact absurd rfl hs1ne
              | cons w s1'' =>
                rw [getPath_cons_obj, getPath_cons_obj, hc]
                simp [objLookup]
            | some c =>
              cases c with
              | vObj cfs =>
                simp only [isJSObject, if_true]
                rw [getPath_objSet_head, ih (JSValue.vObj cfs) s1' v h1' h2']
                rw [getPath_cons_obj, hc]
              | vArr xs =>
                simp only [isJSObject, if_true]
                rw [getPath_objSet_head,
                  setFields_non_obj _ _ _ (fun fs2 h => JSValue.noConfusion h)]
                rw [getPath_cons_obj, hc]
              | vNum k =>
                simp only [isJSObject, Bool.false_eq_true, if_false]
                rw [getPath_objSet_head, ih (JSValue.vObj []) s1' v h1' h2']
                cases s1' with
                | nil => exact absurd rfl hs1ne
                | cons w s1'' =>
                  rw [getPath_cons_obj, getPath_cons_obj, hc]
                  simp [objLookup, getPath]
              | vStr st =>
                simp only [isJSObject, Bool.false_eq_true, if_false]
                rw [getPath_objSet_head, ih (JSValue.vObj []) s1' v h1' h2']
                cases s1' with
                | nil => exact absurd rfl hs1ne
                | cons w s1'' =>
                  rw [getPath_cons_obj, getPath_cons_obj, hc]
                  simp [objLookup, getPath]
        · cases s2' with
          | nil => exact getPath_objSet_other fs g v f s1' hfg
          | cons g2 rest2 => exact getPath_objSet_other fs g _ f s1' hfg

theorem foldl_objSet_lookup_of_lookup (l : List String) (v : JSValue) :
    ∀ (fs0 : List (String × JSValue)) (f : String), objLookup fs0 f = some v →
      objLookup (l.foldl (fun fs k => objSet fs k v) fs0) f = some v := by
  induction l with
  | nil => exact fun fs0 f h => h
  | cons k rest ih =>
    intro fs0 f h
    simp only [List.foldl_cons]
    apply ih
    by_cases hk : f = k
    · subst hk
      rw [objLookup_objSet_self]
    · rw [objLookup_objSet_ne fs0 k f v hk]
      exact h

theorem foldl_objSet_lookup_mem (l : List String) (v : JSValue) :
    ∀ (fs0 : List (String × JSValue)) (f : String), f ∈ l →
      objLookup (l.foldl (fun fs k => objSet fs k v) fs0) f = some v := by
  induction l with
  | nil =>
    intro _ _ h
    simp at h
  | cons k rest ih =>
    intro fs0 f hmem
    simp only [List.foldl_cons]
    rcases List.mem_cons.mp hmem with rfl | hr
    · exact foldl_objSet_lookup_of_lookup rest v (objSet fs0 f v) f (objLookup_objSet_self fs0 f v)
    · exact ih _ f hr

theorem multiFold_preserve (l : List String) (seed : Int) :
    ∀ (d : JSValue) (sp : List String),
      noArr d = true → (∃ fs, d = JSValue.vObj fs) →
      getPath d sp = some (JSValue.vNum seed) →
      (∀ q ∈ l, splitDots q = sp ∨
        (isSegPre sp (splitDots q) = false ∧ isSegPre (splitDots q) sp = false)) →
      getPath
        (l.foldl (fun doc f => setDottedFieldToValue doc (JSValue.vStr f) (JSValue.vNum seed)) d)
        sp = some (JSValue.vNum seed) := by
  induction l with
  | nil => exact fun d sp _ _ h _ => h
  | cons q rest ih =>
    intro d sp hna hobj hget hq
    obtain ⟨fs, rfl⟩ := hobj
    simp only [List.foldl_cons]
    have hd' : setDottedFieldToValue (JSValue.vObj fs) (JSValue.vStr q) (JSValue.vNum seed) =
        setFields (JSValue.vObj fs) (splitDots q) (JSValue.vNum seed) := rfl
    apply ih
    · rw [hd']
      exact noArr_setFields _ _ _ (by rwa [noArr] at hna; ) (by rw [noArr])
    · rw [hd']
      exact setFields_vObj fs _ _
    · rcases hq q (by simp) with heq | hc
      · rw [hd', heq]
        have hspne : sp ≠ [] := by
          intro he
          rw [he] at hget
          exact JSValue.noConfusion (Option.some.inj hget)
        exact setFields_getPath_self sp fs (JSValue.vNum seed) (by rwa [noArr] at hna) hspne
      · rw [hd',
          setFields_getPath_preserve (splitDots q) (JSValue.vObj fs) sp (JSValue.vNum seed)
            hc.1 hc.2]
        exact hget
    · intro q' hq'
      exact hq q' (by simp [hq'])

theorem multiFold_sets (l : List String) (seed : Int) :
    ∀ (d : JSValue), noArr d = true → (∃ fs, d = JSValue.vObj fs) →
      (∀ p ∈ l, ∀ q ∈ l, p ≠ q → isSegPre (splitDots p) (splitDots q) = false) →
      ∀ p ∈ l,
        getPath
          (l.foldl (fun doc f => setDottedFieldToValue doc (JSValue.vStr f) (JSValue.vNum seed)) d)
          (splitDots p) = some (JSValue.vNum seed) := by
  induction l with
  | nil =>
    intro d _ _ _ p hp
    simp at hp
  | cons q rest ih =>
    intro d hna hobj hpw p hp
    obtain ⟨fs, rfl⟩ := hobj
    simp only [List.foldl_cons]
    rcases List.mem_cons.mp hp with rfl | hpr
    · apply multiFold_preserve rest seed _ (splitDots p)
      · exact noArr_setFields _ _ _ (by rwa [noArr] at hna) (by rw [noArr])
      · exact setFields_vObj fs _ _
      · show getPath (setFields (JSValue.vObj fs) (splitDots p) (JSValue.vNum seed))
          (splitDots p) = _
        exact setFields_getPath_self _ fs _ (by rwa [noArr] at hna) (splitDots_ne_nil p)
      · intro q' hq'
        by_cases hpq : p = q'
        · exact Or.inl (by rw [hpq])
        · refine Or.inr ⟨?_, ?_⟩
          · exact hpw p (by simp) q' (by simp [hq']) hpq
          · exact hpw q' (by simp [hq']) p (by simp) (fun h => hpq h.symm)
    · refine ih _ ?_ ?_ ?_ p hpr
      · exact noArr_setFields _ _ _ (by rwa [noArr] at hna) (by rw [noArr])
      · exact setFields_vObj fs _ _
      · exact fun a ha b hb hab => hpw a (by simp [ha]) b (by simp [hb]) hab

theorem joinDots_append_singleton (l : List String) (x : String) (h : l ≠ []) :
    joinDots (l ++ [x]) = joinDots l ++ "." ++ x := by
  induction l with
  | nil => exact absurd rfl h
  | cons y ys ih =>
    cases ys with
    | nil => simp [joinDots]
    | cons z zs =>
      have ih' := ih (by simp)
      simp only [List.cons_append] at ih' ⊢
      rw [joinDots, joinDots, ih']
      simp [String.append_assoc]

theorem subObjPath_succ (d : Nat) :
    subObjPath (d + 1) =
      subObjPath d ++ (if 0 < d then "." else "") ++ ("subObj-" ++ natDecimal d) := by
  unfold subObjPath
  rw [List.range_succ, List.foldl_append]
  simp

theorem subObjPath_eq_joinDots (depth : Nat) :
    subObjPath depth = joinDots ((List.range depth).map (fun i => "subObj-" ++ natDecimal i)) := by
  induction depth with
  | zero => rfl
  | succ d ih =>
    rw [subObjPath_succ, ih, List.range_succ, List.map_append]
    cases d with
    | zero => simp [joinDots]
    | succ e =>
      simp only [List.map_cons, List.map_nil]
      rw [joinDots_append_singleton _ _ (by simp)]
      simp

theorem getD_map_str (l : List String) (g : String → String) (i : Nat) (h : i < l.length) :
    (l.map g).getD i "" = g (l.getD i "") := by
  rw [List.getD_eq_getElem?_getD, List.getD_eq_getElem?_getD, List.getElem?_map,
    List.getElem?_eq_getElem h]
  rfl

theorem getNFieldNames_length (n : Nat) : (getNFieldNames n).length = n := by
  simp [getNFieldNames]

theorem getNFieldNames_getD (n i : Nat) (h : i < n) :
    (getNFieldNames n).getD i "" = "field-" ++ natDecimal i := by
  unfold getNFieldNames
  rw [List.getD_eq_getElem?_getD, List.getElem?_map, List.getElem?_range h]
  rfl

theorem getNFieldNames_nodup (n : Nat) : (getNFieldNames n).Nodup := by
  refine (List.nodup_range n).map ?_
  intro a b h
  exact natDecimal_injective (string_append_left_cancel "field-" _ _ h)

/-! Claim theorems. -/

/-- C1 (counterexample): at depth 0, `getNFieldNamesAtGivenDepth` does not
return the flat name `field-0`; it returns `.field-0`, with a leading dot
left by the unconditional `pathPrefix + "." + name` concatenation. -/
theorem getNFieldNamesAtGivenDepth_depth_zero_not_flat :
    (getNFieldNamesAtGivenDepth 1 0).getD 0 "" = ".field-0" ∧
    (getNFieldNamesAtGivenDepth 1 0).getD 0 "" ≠ "field-0" :=
  ⟨by decide, by decide⟩

/-- C1 (amended): for all `n` and `depth`, `getNFieldNamesAtGivenDepth n
depth` returns `n` distinct names, the `j`-th being the `depth` dotted
`subObj` prefix segments joined to the `field-j` suffix by a `"."` — the
separator is emitted even at depth 0, so depth 0 yields `.field-j`, not the
flat names. -/
theorem getNFieldNamesAtGivenDepth_shape (n depth : Nat) :
    (getNFieldNamesAtGivenDepth n depth).length = n ∧
    (getNFieldNamesAtGivenDepth n depth).Nodup ∧
    ∀ j, j < n →
      (getNFieldNamesAtGivenDepth n depth).getD j "" =
        joinDots ((List.range depth).map (fun i => "subObj-" ++ natDecimal i)) ++ "." ++
          ("field-" ++ natDecimal j) := by
  refine ⟨?_, ?_, ?_⟩
  · simp [getNFieldNamesAtGivenDepth, getNFieldNames_length]
  · unfold getNFieldNamesAtGivenDepth
    refine (getNFieldNames_nodup n).map ?_
    intro a b h
    exact string_append_left_cancel (subObjPath depth ++ ".") a b
      (by simpa [String.append_assoc] using h)
  · intro j hj
    unfold getNFieldNamesAtGivenDepth
    rw [getD_map_str _ _ j (by rw [getNFieldNames_length]; exact hj),
      getNFieldNames_getD n j hj, subObjPath_eq_joinDots]

/-- C1 (witness): the amended statement evaluated at `n = 2`, `depth = 3`,
`j = 1`. -/
theorem getNFieldNamesAtGivenDepth_shape_witness :
    (getNFieldNamesAtGivenDepth 2 3).getD 1 "" =
      joinDots ((List.range 3).map (fun i => "subObj-" ++ natDecimal i)) ++ "." ++
        ("field-" ++ natDecimal 1) :=
  (getNFieldNamesAtGivenDepth_shape 2 3).2.2 1 (by decide)

/-- C2 (counterexample): the `getRangeQueryList` of
`testcases/wildcard_index_query.js` re-seeds the stream on every call, so
its result is identical for two incoming stream states even though draws
from those two states differ — the build does not draw this randomness
from a stream seeded once at the start of the run. -/
theorem getRangeQueryList_ignores_stream_state :
    getRangeQueryList ["field-0"] 100 (setRandomSeed 1) =
      getRangeQueryList ["field-0"] 100 (setRandomSeed 2) ∧
    (randInt 90 (setRandomSeed 1)).1 ≠ (randInt 90 (setRandomSeed 2)).1 :=
  ⟨by decide, by decide⟩

/-- C2 (amended): the range and range-sort query-list builders of
`testcases/wildcard_index_query.js` re-seed the stream with the fixed seed
11010 at the start of every call, so their output is independent of the
incoming stream state; in particular repeated builds with the fixed seed
produce identical query lists. -/
theorem rangeQueryList_rebuild_deterministic (fieldList : List String) (numDocuments : Nat)
    (rs1 rs2 : RandState) :
    getRangeQueryList fieldList numDocuments rs1 = getRangeQueryList fieldList numDocuments rs2 ∧
    getRangeSortQueryList fieldList numDocuments rs1 =
      getRangeSortQueryList fieldList numDocuments rs2 :=
  ⟨rfl, rfl⟩

/-- C7: every call to `makeComparisonReadTest` appends exactly two records
to the registry; they share `ops` and `tags`, the second name adds the
`.Baseline` suffix, and their `pre` setups are the wildcard-index and
targeted-index builders respectively. -/
theorem makeComparisonReadTest_two_records (name : String) (fieldsToIndex : List String)
    (operationList : List QueryOp) (documentGenerator : Option (Int → JSValue))
    (documentCount : Nat) (tests : List TestCase) :
    ∃ t1 t2 : TestCase,
      makeComparisonReadTest name fieldsToIndex operationList documentGenerator documentCount
          tests = tests ++ [t1, t2] ∧
      t1.ops = t2.ops ∧ t1.tags = t2.tags ∧ t2.name = t1.name ++ ".Baseline" ∧
      t1.pre = PreSetup.wildcardIndex fieldsToIndex documentGenerator documentCount ∧
      t2.pre = PreSetup.targetedIndex fieldsToIndex documentGenerator documentCount := by
  refine ⟨{ name := "Queries.WildcardIndex." ++ name,
            tags := ["wildcard_read", "indexed", ">=4.1.3", "regression"],
            pre := PreSetup.wildcardIndex fieldsToIndex documentGenerator documentCount,
            ops := operationList },
          { name := ("Queries.WildcardIndex." ++ name) ++ ".Baseline",
            tags := ["wildcard_read", "indexed", ">=4.1.3", "regression"],
            pre := PreSetup.targetedIndex fieldsToIndex documentGenerator documentCount,
            ops := operationList }, ?_, rfl, rfl, rfl, rfl, rfl⟩
  unfold makeComparisonReadTest addReadTest getSetupFunctionWithWildcardIndex
    getSetupFunctionForTargetedIndex
  simp [String.append_assoc]

/-- C9: every document-generator builder returns no generator on an empty
field list (the build-time assertion fails before any closure is
produced), and `getTwoPointQueryList` returns no operation list whenever
its field list does not have length exactly 2. -/
theorem builders_reject_bad_field_lists :
    (∀ documentCount, P0.getDocumentGenerator [] documentCount = none) ∧
    (∀ documentCount arraySize,
      P0.getTopLevelArrayDocumentGenerator [] documentCount arraySize = none) ∧
    (∀ documentCount arraySize,
      P0.getTopLevelArraySingleFieldPerDocumentGenerator [] documentCount arraySize = none) ∧
    getMultiFieldPathToIntegerDocumentGenerator [] = none ∧
    (∀ arraySize, getTopLevelArrayMultiFieldDocumentGenerator [] arraySize = none) ∧
    (∀ arraySize, getTopLevelArraySingleFieldPerDocumentGenerator [] arraySize = none) ∧
    (∀ (fieldList : List String) (numDocuments : Nat), fieldList.length ≠ 2 →
      getTwoPointQueryList fieldList numDocuments = none) := by
  refine ⟨fun _ => rfl, fun _ _ => rfl, fun _ _ => rfl, rfl, fun _ => rfl, fun _ => rfl, ?_⟩
  intro fieldList numDocuments h
  simp [getTwoPointQueryList, h]

/-- C9 (witness): a one-field list is rejected by the two-field point-query
builder. -/
theorem builders_reject_bad_field_lists_witness :
    getTwoPointQueryList ["field-0"] 100 = none :=
  builders_reject_bad_field_lists.2.2.2.2.2.2 ["field-0"] 100 (by decide)

/-- C10: a non-string `path` makes `setDottedFieldToValue` a silent no-op
returning the object it was given, unchanged. -/
theorem setDottedFieldToValue_non_string_noop (object path value : JSValue)
    (h : isJSString path = false) : setDottedFieldToValue object path value = object := by
  cases path with
  | vStr s => simp [isJSString] at h
  | vNum k => rfl
  | vArr xs => rfl
  | vObj fs => rfl

/-- C10 (witness): a numeric path leaves a sample object untouched. -/
theorem setDottedFieldToValue_non_string_noop_witness :
    setDottedFieldToValue (JSValue.vObj [("a", JSValue.vNum 1)]) (JSValue.vNum 7)
      (JSValue.vNum 5) = JSValue.vObj [("a", JSValue.vNum 1)] :=
  setDottedFieldToValue_non_string_noop (JSValue.vObj [("a", JSValue.vNum 1)]) (JSValue.vNum 7)
    (JSValue.vNum 5) rfl

/-- C4: setting a dotted path whose first segment currently holds a scalar
silently replaces that scalar by a mapping built from a fresh empty one
(no error is raised: the embedding is total), and the written value is then
readable at the full dotted location. -/
theorem setDottedFieldToValue_overwrites_scalar (fs : List (String × JSValue)) (p f : String)
    (rest : List String) (k : Int) (v : JSValue)
    (hsplit : splitDots p = f :: rest) (hrest : rest ≠ [])
    (hscalar : objLookup fs f = some (JSValue.vNum k)) :
    setDottedFieldToValue (JSValue.vObj fs) (JSValue.vStr p) v =
      JSValue.vObj (objSet fs f (setFields (JSValue.vObj []) rest v)) ∧
    getPath (setDottedFieldToValue (JSValue.vObj fs) (JSValue.vStr p) v) (f :: rest) =
      some v := by
  have hmain : setDottedFieldToValue (JSValue.vObj fs) (JSValue.vStr p) v =
      JSValue.vObj (objSet fs f (setFields (JSValue.vObj []) rest v)) := by
    show setFields (JSValue.vObj fs) (splitDots p) v = _
    rw [hsplit]
    cases rest with
    | nil => exact absurd rfl hrest
    | cons g rest2 =>
      simp only [setFields, hscalar, isJSObject, Bool.false_eq_true, if_false]
  refine ⟨hmain, ?_⟩
  rw [hmain]
  cases rest with
  | nil => exact absurd rfl hrest
  | cons g rest2 =>
    rw [getPath_objSet_head]
    exact setFields_getPath_self (g :: rest2) [] v (by rw [noArrFields]) (by simp)

/-- C4 (witness): setting `a.b` on a document where `a` holds the scalar 1
replaces it by a nested mapping holding 5 at `a.b`. -/
theorem setDottedFieldToValue_overwrites_scalar_witness :
    setDottedFieldToValue (JSValue.vObj [("a", JSValue.vNum 1)]) (JSValue.vStr "a.b")
      (JSValue.vNum 5) =
      JSValue.vObj (objSet [("a", JSValue.vNum 1)] "a"
        (setFields (JSValue.vObj []) ["b"] (JSValue.vNum 5))) ∧
    getPath (setDottedFieldToValue (JSValue.vObj [("a", JSValue.vNum 1)]) (JSValue.vStr "a.b")
      (JSValue.vNum 5)) ("a" :: ["b"]) = some (JSValue.vNum 5) :=
  setDottedFieldToValue_overwrites_scalar [("a", JSValue.vNum 1)] "a.b" "a" ["b"] 1
    (JSValue.vNum 5) (by decide) (by decide) rfl

/-- C3: the shared-array generator accepts any non-empty field list and
binds every listed field to the same array of `arraySize` consecutive
integers starting at `seed - ceil(arraySize / 2)`. -/
theorem topLevelArrayMultiField_shared_array (fieldList : List String) (arraySize : Nat)
    (seed : Int) (hne : fieldList ≠ []) (hsz : 1 ≤ arraySize) :
    getTopLevelArrayMultiFieldDocumentGenerator fieldList arraySize =
      some (topLevelArrayMultiFieldDocFn fieldList arraySize) ∧
    (sharedArrayValue arraySize seed).length = arraySize ∧
    (∀ j, j < arraySize → (sharedArrayValue arraySize seed).getD j (JSValue.vNum 0) =
      JSValue.vNum (seed - ((arraySize + 1) / 2 : Nat) + j)) ∧
    ∀ f ∈ fieldList,
      getPath (topLevelArrayMultiFieldDocFn fieldList arraySize seed) [f] =
        some (JSValue.vArr (sharedArrayValue arraySize seed)) := by
  have hlen : 0 < fieldList.length := List.length_pos.mpr hne
  refine ⟨by simp [getTopLevelArrayMultiFieldDocumentGenerator, hlen], ?_, ?_, ?_⟩
  · simp [sharedArrayValue]
  · intro j hj
    unfold sharedArrayValue
    rw [List.getD_eq_getElem?_getD, List.getElem?_map, List.getElem?_range hj]
    rfl
  · intro f hf
    unfold topLevelArrayMultiFieldDocFn
    rw [getPath_cons_obj,
      foldl_objSet_lookup_mem fieldList (JSValue.vArr (sharedArrayValue arraySize seed)) [] f hf]
    rfl

/-- C3 (witness): the shared-array generator at field list `[x]`,
arraySize 4, seed 0, where the array is `[-2, -1, 0, 1]`. -/
theorem topLevelArrayMultiField_shared_array_witness :
    (getTopLevelArrayMultiFieldDocumentGenerator ["x"] 4 =
      some (topLevelArrayMultiFieldDocFn ["x"] 4) ∧
    (sharedArrayValue 4 0).length = 4 ∧
    (∀ j, j < 4 → (sharedArrayValue 4 0).getD j (JSValue.vNum 0) =
      JSValue.vNum (0 - ((4 + 1) / 2 : Nat) + j)) ∧
    ∀ f ∈ ["x"],
      getPath (topLevelArrayMultiFieldDocFn ["x"] 4 0) [f] =
        some (JSValue.vArr (sharedArrayValue 4 0))) ∧
    sharedArrayValue 4 0 =
      [JSValue.vNum (-2), JSValue.vNum (-1), JSValue.vNum 0, JSValue.vNum 1] :=
  ⟨topLevelArrayMultiField_shared_array ["x"] 4 0 (by decide) (by decide), rfl⟩

/-- C5: the rotating generator accepts any non-empty field list and, for a
nonnegative seed, returns a document whose only key is the field at index
`seed % fieldList.length`, bound to `[0 .. arraySize-1]`; every other
listed field is absent. -/
theorem topLevelArraySingleField_rotating (fieldList : List String) (arraySize seed : Nat)
    (hne : fieldList ≠ []) :
    getTopLevelArraySingleFieldPerDocumentGenerator fieldList arraySize =
      some (topLevelArraySingleFieldDocFn fieldList arraySize) ∧
    topLevelArraySingleFieldDocFn fieldList arraySize (seed : Int) =
      JSValue.vObj [(fieldList.getD (seed % fieldList.length) "",
        JSValue.vArr ((List.range arraySize).map (fun (j : Nat) => JSValue.vNum (j : Int))))] ∧
    ∀ f ∈ fieldList, f ≠ fieldList.getD (seed % fieldList.length) "" →
      getPath (topLevelArraySingleFieldDocFn fieldList arraySize (seed : Int)) [f] = none := by
  have hlen : 0 < fieldList.length := List.length_pos.mpr hne
  have hidx : ((seed : Int) % (fieldList.length : Int)).toNat = seed % fieldList.length := by
    rw [← Int.ofNat_emod]
    exact Int.toNat_ofNat _
  refine ⟨by simp [getTopLevelArraySingleFieldPerDocumentGenerator, hlen], ?_, ?_⟩
  · unfold topLevelArraySingleFieldDocFn
    rw [hidx]
    rfl
  · intro f hf hne2
    unfold topLevelArraySingleFieldDocFn
    rw [hidx, getPath_cons_obj,
      objLookup_objSet_ne [] (fieldList.getD (seed % fieldList.length) "") f _ hne2]
    rfl

/-- C5 (witness): the rotating generator at field list `[x, y]`,
arraySize 3, seed 3, choosing `y` since `3 % 2 = 1`. -/
theorem topLevelArraySingleField_rotating_witness :
    getTopLevelArraySingleFieldPerDocumentGenerator ["x", "y"] 3 =
      some (topLevelArraySingleFieldDocFn ["x", "y"] 3) ∧
    topLevelArraySingleFieldDocFn ["x", "y"] 3 ((3 : Nat) : Int) =
      JSValue.vObj [(["x", "y"].getD (3 % ["x", "y"].length) "",
        JSValue.vArr ((List.range 3).map (fun (j : Nat) => JSValue.vNum (j : Int))))] ∧
    ∀ f ∈ ["x", "y"], f ≠ ["x", "y"].getD (3 % ["x", "y"].length) "" →
      getPath (topLevelArraySingleFieldDocFn ["x", "y"] 3 ((3 : Nat) : Int)) [f] = none :=
  topLevelArraySingleField_rotating ["x", "y"] 3 3 (by decide)

theorem rangeQueryLoop_cons (f : String) (rest : List String) (n : Nat) (rs : RandState) :
    rangeQueryLoop (f :: rest) n rs =
      (QueryOp.find (QueryDoc.fieldPred f
          (QueryValue.range (randInt (n - 10) rs).1 ((randInt (n - 10) rs).1 + 10))) ::
        (rangeQueryLoop rest n (randInt (n - 10) rs).2).1,
        (rangeQueryLoop rest n (randInt (n - 10) rs).2).2) := rfl

theorem rangeQueryLoop_spec (fieldList : List String) (numDocuments : Nat) :
    ∀ rs : RandState, 11 ≤ numDocuments →
      (rangeQueryLoop fieldList numDocuments rs).1.length = fieldList.length ∧
      ∀ i, i < fieldList.length → ∃ r, r < numDocuments - 10 ∧
        (rangeQueryLoop fieldList numDocuments rs).1.getD i default =
          QueryOp.find
            (QueryDoc.fieldPred (fieldList.getD i "") (QueryValue.range r (r + 10))) := by
  induction fieldList with
  | nil =>
    intro rs _
    exact ⟨rfl, fun i hi => absurd hi (by simp)⟩
  | cons f rest ih =>
    intro rs h
    have htail := ih (randInt (numDocuments - 10) rs).2 h
    refine ⟨?_, ?_⟩
    · show (QueryOp.find _ ::
        (rangeQueryLoop rest numDocuments (randInt (numDocuments - 10) rs).2).1).length =
        rest.length + 1
      rw [List.length_cons, htail.1]
    · intro i hi
      cases i with
      | zero => exact ⟨(randInt (numDocuments - 10) rs).1, Nat.mod_lt _ (by omega), rfl⟩
      | succ j =>
        have hj : j < rest.length := by simpa using hi
        obtain ⟨r, hr, he⟩ := htail.2 j hj
        refine ⟨r, hr, ?_⟩
        rw [rangeQueryLoop_cons]
        simpa using he

/-- C8: both `getRangeQueryList` variants return one `find` per field, in
field-list order, each constraining its field to a closed interval whose
`$gte` is a stream draw below `numDocuments - 10` and whose `$lte` is that
draw plus 10. -/
theorem rangeQueryList_shape (fieldList : List String) (numDocuments : Nat) (rs : RandState)
    (h : 11 ≤ numDocuments) :
    ((getRangeQueryList fieldList numDocuments rs).1.length = fieldList.length ∧
      ∀ i, i < fieldList.length → ∃ r, r < numDocuments - 10 ∧
        (getRangeQueryList fieldList numDocuments rs).1.getD i default =
          QueryOp.find
            (QueryDoc.fieldPred (fieldList.getD i "") (QueryValue.range r (r + 10)))) ∧
    ((P0.getRangeQueryList fieldList numDocuments rs).1.length = fieldList.length ∧
      ∀ i, i < fieldList.length → ∃ r, r < numDocuments - 10 ∧
        (P0.getRangeQueryList fieldList numDocuments rs).1.getD i default =
          QueryOp.find
            (QueryDoc.fieldPred (fieldList.getD i "") (QueryValue.range r (r + 10)))) :=
  ⟨rangeQueryLoop_spec fieldList numDocuments (setRandomSeed 11010) h,
    rangeQueryLoop_spec fieldList numDocuments rs h⟩

/-- C8 (witness): the range-query shape at one field and 100 documents. -/
theorem rangeQueryList_shape_witness :
    ((getRangeQueryList ["field-0"] 100 (setRandomSeed 11010)).1.length =
        (["field-0"] : List String).length ∧
      ∀ i, i < (["field-0"] : List String).length → ∃ r, r < 100 - 10 ∧
        (getRangeQueryList ["field-0"] 100 (setRandomSeed 11010)).1.getD i default =
          QueryOp.find
            (QueryDoc.fieldPred ((["field-0"] : List String).getD i "")
              (QueryValue.range r (r + 10)))) ∧
    ((P0.getRangeQueryList ["field-0"] 100 (setRandomSeed 11010)).1.length =
        (["field-0"] : List String).length ∧
      ∀ i, i < (["field-0"] : List String).length → ∃ r, r < 100 - 10 ∧
        (P0.getRangeQueryList ["field-0"] 100 (setRandomSeed 11010)).1.getD i default =
          QueryOp.find
            (QueryDoc.fieldPred ((["field-0"] : List String).getD i "")
              (QueryValue.range r (r + 10)))) :=
  rangeQueryList_shape ["field-0"] 100 (setRandomSeed 11010) (by decide)

/-- C6 (counterexample): with the conflicting field list `[a, a.b]` the
scalar generator accepts the list, but the produced document does not hold
the seed at path `a` — the second set replaced the scalar by a nested
mapping. -/
theorem multiFieldPathDocFn_conflicting_paths :
    ("a" ∈ ["a", "a.b"]) ∧ (["a", "a.b"] ≠ ([] : List String)) ∧
    getMultiFieldPathToIntegerDocumentGenerator ["a", "a.b"] =
      some (multiFieldPathDocFn ["a", "a.b"]) ∧
    getPath (multiFieldPathDocFn ["a", "a.b"] 5) (splitDots "a") ≠
      some (JSValue.vNum 5) := by
  refine ⟨by decide, by decide, rfl, ?_⟩
  intro h
  have h2 : some (JSValue.vObj [("b", JSValue.vNum 5)]) = some (JSValue.vNum 5) := h
  exact JSValue.noConfusion (Option.some.inj h2)

/-- C6 (amended): for a non-empty field list in which no two distinct paths
have prefix-related segment lists, the scalar generator produces a document
holding the seed at every listed dotted path. -/
theorem multiFieldPathDocFn_holds_seed (fieldList : List String) (seed : Int)
    (hne : fieldList ≠ [])
    (hpw : ∀ p ∈ fieldList, ∀ q ∈ fieldList, p ≠ q →
      isSegPre (splitDots p) (splitDots q) = false) :
    getMultiFieldPathToIntegerDocumentGenerator fieldList =
      some (multiFieldPathDocFn fieldList) ∧
    ∀ p ∈ fieldList,
      getPath (multiFieldPathDocFn fieldList seed) (splitDots p) =
        some (JSValue.vNum seed) := by
  refine ⟨by simp [getMultiFieldPathToIntegerDocumentGenerator,
    List.length_pos.mpr hne], ?_⟩
  intro p hp
  unfold multiFieldPathDocFn
  exact multiFold_sets fieldList seed (JSValue.vObj []) (by rw [noArr, noArrFields]) ⟨[], rfl⟩
    hpw p hp

/-- C6 (witness): the round-trip at field list `[a.b, c]`, seed 5. -/
theorem multiFieldPathDocFn_holds_seed_witness :
    getMultiFieldPathToIntegerDocumentGenerator ["a.b", "c"] =
      some (multiFieldPathDocFn ["a.b", "c"]) ∧
    ∀ p ∈ (["a.b", "c"] : List String),
      getPath (multiFieldPathDocFn ["a.b", "c"] 5) (splitDots p) = some (JSValue.vNum 5) :=
  multiFieldPathDocFn_holds_seed ["a.b", "c"] 5 (by decide) (by decide)
